import Mathlib

/-!
Verification development for the static-mirror scraper
(`tools/scrape_site_static.py`) and the runtime stripper
(`tools/strip_wix_runtime.py`).

Strings from the Python sources are modelled as `List Char` (`Str`);
bytes as `List Nat`; filesystem paths as lists of components
(`List String`); the filesystem itself as an association list from
paths to byte contents.  The HTTP transport and the URL-resolution
collaborator (`urllib.parse.urljoin`, an external library treated as
the URL Normalizer collaborator) are parameters of the embedded
functions.  `hashlib.sha256` is embedded in full, since the asset
naming scheme depends on its exact output.
-/

namespace StaticMirror

/-- Python `str` values are modelled as lists of characters. -/
abbrev Str := List Char

/-- Converts a Lean string literal into the `Str` representation. -/
def lit (s : String) : Str := s.data

/-! ## SHA-256 (embedding of `hashlib.sha256(...).hexdigest()`)

The scraper derives asset filenames from truncated SHA-256 hex digests
(`_safe_filename_from_url`, `tools/scrape_site_static.py` lines 54-69),
so the hash is embedded bit-for-bit; 32-bit machine words are `Nat`
with explicit reduction modulo `2^32`. -/

/-- The 32-bit modulus. -/
def M32 : Nat := 4294967296

/-- Right rotation of a 32-bit word held in a `Nat`. -/
def rotr32 (n w : Nat) : Nat := ((w >>> n) ||| (w <<< (32 - n))) % M32

/-- Bitwise complement of a 32-bit word. -/
def not32 (w : Nat) : Nat := w ^^^ 4294967295

/-- Eight 32-bit hash words. -/
structure Hash8 where
  ha : Nat
  hb : Nat
  hc : Nat
  hd : Nat
  he : Nat
  hf : Nat
  hg : Nat
  hh : Nat
deriving DecidableEq

/-- SHA-256 round constants. -/
def sha256K : List Nat :=
  [1116352408, 1899447441, 3049323471, 3921009573, 961987163, 1508970993,
   2453635748, 2870763221, 3624381080, 310598401, 607225278, 1426881987,
   1925078388, 2162078206, 2614888103, 3248222580, 3835390401, 4022224774,
   264347078, 604807628, 770255983, 1249150122, 1555081692, 1996064986,
   2554220882, 2821834349, 2952996808, 3210313671, 3336571891, 3584528711,
   113926993, 338241895, 666307205, 773529912, 1294757372, 1396182291,
   1695183700, 1986661051, 2177026350, 2456956037, 2730485921, 2820302411,
   3259730800, 3345764771, 3516065817, 3600352804, 4094571909, 275423344,
   430227734, 506948616, 659060556, 883997877, 958139571, 1322822218,
   1537002063, 1747873779, 1955562222, 2024104815, 2227730452, 2361852424,
   2428436474, 2756734187, 3204031479, 3329325298]

/-- SHA-256 initial hash value. -/
def sha256Init : Hash8 :=
  ⟨1779033703, 3144134277, 1013904242, 2773480762,
   1359893119, 2600822924, 528734635, 1541459225⟩

/-- UTF-8 encoding of one character (Python `str.encode("utf-8")`). -/
def utf8Bytes (c : Char) : List Nat :=
  let n := c.toNat
  if n < 0x80 then [n]
  else if n < 0x800 then [0xC0 ||| (n >>> 6), 0x80 ||| (n &&& 0x3F)]
  else if n < 0x10000 then
    [0xE0 ||| (n >>> 12), 0x80 ||| ((n >>> 6) &&& 0x3F), 0x80 ||| (n &&& 0x3F)]
  else
    [0xF0 ||| (n >>> 18), 0x80 ||| ((n >>> 12) &&& 0x3F), 0x80 ||| ((n >>> 6) &&& 0x3F),
     0x80 ||| (n &&& 0x3F)]

/-- UTF-8 encoding of a whole string. -/
def utf8Encode (s : Str) : List Nat := s.flatMap utf8Bytes

/-- Big-endian packing of bytes into 32-bit words. -/
def bytesToWords : List Nat → List Nat
  | b0 :: b1 :: b2 :: b3 :: rest =>
      ((b0 <<< 24) ||| (b1 <<< 16) ||| (b2 <<< 8) ||| b3) :: bytesToWords rest
  | _ => []

/-- Big-endian 8-byte encoding of the bit length. -/
def lenBytes64 (n : Nat) : List Nat :=
  [(n >>> 56) &&& 255, (n >>> 48) &&& 255, (n >>> 40) &&& 255, (n >>> 32) &&& 255,
   (n >>> 24) &&& 255, (n >>> 16) &&& 255, (n >>> 8) &&& 255, n &&& 255]

/-- SHA-256 message padding. -/
def sha256Pad (msg : List Nat) : List Nat :=
  let padLen := (64 - (msg.length + 9) % 64) % 64
  msg ++ 0x80 :: (List.replicate padLen 0 ++ lenBytes64 (msg.length * 8))

/-- Splits a byte list into 64-byte chunks; the fuel argument makes the
recursion structural (it is instantiated with the list length, an upper
bound on the number of chunks). -/
def chunks64Go : Nat → List Nat → List (List Nat)
  | _, [] => []
  | 0, l => [l]
  | fuel + 1, l => l.take 64 :: chunks64Go fuel (l.drop 64)

/-- Splits the padded message into 64-byte chunks. -/
def chunks64 (l : List Nat) : List (List Nat) := chunks64Go l.length l

/-- Message-schedule sigma-0. -/
def ssig0 (x : Nat) : Nat := rotr32 7 x ^^^ rotr32 18 x ^^^ (x >>> 3)

/-- Message-schedule sigma-1. -/
def ssig1 (x : Nat) : Nat := rotr32 17 x ^^^ rotr32 19 x ^^^ (x >>> 10)

/-- Extends the 16-word schedule to 64 words; `acc` is kept reversed. -/
def extendSched : Nat → List Nat → List Nat
  | 0, acc => acc.reverse
  | n + 1, acc =>
      let w16 := acc.getD 15 0
      let w15 := acc.getD 14 0
      let w7 := acc.getD 6 0
      let w2 := acc.getD 1 0
      extendSched n (((w16 + ssig0 w15 + w7 + ssig1 w2) % M32) :: acc)

/-- The 64-word message schedule of one chunk. -/
def schedule (chunk : List Nat) : List Nat := extendSched 48 (bytesToWords chunk).reverse

/-- Compression sigma-0. -/
def bsig0 (x : Nat) : Nat := rotr32 2 x ^^^ rotr32 13 x ^^^ rotr32 22 x

/-- Compression sigma-1. -/
def bsig1 (x : Nat) : Nat := rotr32 6 x ^^^ rotr32 11 x ^^^ rotr32 25 x

/-- One SHA-256 compression round; `kw` is the (constant, schedule word) pair. -/
def sha256Round (st : Hash8) (kw : Nat × Nat) : Hash8 :=
  let ch := (st.he &&& st.hf) ^^^ (not32 st.he &&& st.hg)
  let t1 := (st.hh + bsig1 st.he + ch + kw.1 + kw.2) % M32
  let maj := (st.ha &&& st.hb) ^^^ (st.ha &&& st.hc) ^^^ (st.hb &&& st.hc)
  let t2 := (bsig0 st.ha + maj) % M32
  ⟨(t1 + t2) % M32, st.ha, st.hb, st.hc, (st.hd + t1) % M32, st.he, st.hf, st.hg⟩

/-- Processes one 64-byte chunk. -/
def processChunk (st : Hash8) (chunk : List Nat) : Hash8 :=
  let c := (sha256K.zip (schedule chunk)).foldl sha256Round st
  ⟨(st.ha + c.ha) % M32, (st.hb + c.hb) % M32, (st.hc + c.hc) % M32, (st.hd + c.hd) % M32,
   (st.he + c.he) % M32, (st.hf + c.hf) % M32, (st.hg + c.hg) % M32, (st.hh + c.hh) % M32⟩

/-- SHA-256 of a byte string, as eight hash words. -/
def sha256Words (msg : List Nat) : Hash8 :=
  (chunks64 (sha256Pad msg)).foldl processChunk sha256Init

/-- Lowercase hex digit. -/
def hexDigit (n : Nat) : Char := Nat.digitChar n

/-- Eight lowercase hex digits of one 32-bit word. -/
def toHex8 (w : Nat) : Str :=
  [hexDigit ((w >>> 28) &&& 15), hexDigit ((w >>> 24) &&& 15), hexDigit ((w >>> 20) &&& 15),
   hexDigit ((w >>> 16) &&& 15), hexDigit ((w >>> 12) &&& 15), hexDigit ((w >>> 8) &&& 15),
   hexDigit ((w >>> 4) &&& 15), hexDigit (w &&& 15)]

/-- The 64-character lowercase hex digest (Python `hexdigest()`). -/
def sha256Hex (msg : List Nat) : Str :=
  let d := sha256Words msg
  toHex8 d.ha ++ toHex8 d.hb ++ toHex8 d.hc ++ toHex8 d.hd ++
  toHex8 d.he ++ toHex8 d.hf ++ toHex8 d.hg ++ toHex8 d.hh

/-! ## Python string helpers -/

/-- Python `pat in s` on strings: substring containment. -/
def strContains : Str → Str → Bool
  | [], pat => pat == []
  | s@(_ :: t), pat => pat.isPrefixOf s || strContains t pat

/-- Python `s.startswith(pat)`. -/
def strStarts (s pat : Str) : Bool := pat.isPrefixOf s

/-- Python `s.endswith(pat)`. -/
def strEnds (s pat : Str) : Bool := pat.isSuffixOf s

/-- ASCII whitespace as stripped by Python `str.strip()` (the Unicode-only
whitespace code points do not occur in the inputs modelled here). -/
def pySpace (c : Char) : Bool :=
  c == ' ' || c == '\t' || c == '\n' || c == '\r' || c == '\x0b' || c == '\x0c'

/-- Python `str.strip()` with no argument. -/
def pyStrip (s : Str) : Str := ((s.dropWhile pySpace).reverse.dropWhile pySpace).reverse

/-- Python `s.rstrip(chars)`: removes every trailing character from `cs`. -/
def rstripChars (cs : List Char) (s : Str) : Str :=
  (s.reverse.dropWhile (fun c => cs.contains c)).reverse

/-- Python `s.lstrip(chars)`: removes every leading character from `cs`. -/
def lstripChars (cs : List Char) (s : Str) : Str := s.dropWhile (fun c => cs.contains c)

/-- Python `str.lower()` (ASCII; no non-ASCII cased letters occur here). -/
def lowerStr (s : Str) : Str := s.map Char.toLower

/-- Worker for `strReplace`; the fuel (instantiated with the string length)
makes the recursion structural.  Replacements are non-overlapping and
proceed left to right, as in Python `str.replace`. -/
def replGo (pat rep : Str) : Nat → Str → Str
  | _, [] => []
  | 0, s => s
  | fuel + 1, c :: t =>
      if pat != [] && pat.isPrefixOf (c :: t) then
        rep ++ replGo pat rep fuel ((c :: t).drop pat.length)
      else c :: replGo pat rep fuel t

/-- Python `s.replace(pat, rep)` (all occurrences). -/
def strReplace (s pat rep : Str) : Str := replGo pat rep s.length s

/-- Splits at the last occurrence of `tc`: returns `(before, after)` with that
occurrence removed, or `none` when `tc` does not occur.  Models the
`str.rfind`-based splitting used by `posixpath`. -/
def splitLastChar (tc : Char) : Str → Option (Str × Str)
  | [] => none
  | c :: t =>
      match splitLastChar tc t with
      | some (a, b) => some (c :: a, b)
      | none => if c = tc then some ([], t) else none

/-- Splits at the first occurrence of `tc` (Python `s.split(tc, 1)`). -/
def splitFirstChar (tc : Char) (s : Str) : Str × Option Str :=
  match s.findIdx? (· == tc) with
  | some i => (s.take i, some (s.drop (i + 1)))
  | none => (s, none)

/-! ## URL Normalizer (embedding of the `urllib.parse` calls used by the
scraper: `urlparse`, `urlunparse`/`geturl`, and the derived helpers
`_strip_fragment` and `_is_http_url`).  General base-relative resolution
(`urllib.parse.urljoin`, used by `_normalize_url`) is an external
collaborator and appears as a `resolve` parameter of the embedded
rewriters. -/

/-- The components produced by `urllib.parse.urlparse`. -/
structure UrlParts where
  scheme : Str
  netloc : Str
  path : Str
  params : Str
  query : Str
  fragment : Str
deriving DecidableEq

/-- Characters `urllib.parse.urlsplit` removes from the URL before parsing. -/
def urlUnsafeChar (c : Char) : Bool := c == '\t' || c == '\r' || c == '\n'

/-- Characters allowed in a URL scheme. -/
def schemeChar (c : Char) : Bool :=
  c.isAlpha || c.isDigit || c == '+' || c == '-' || c == '.'

/-- Splits a leading `scheme:` as `urlsplit` does: the part before the first
colon must be non-empty, start with an ASCII letter and consist of scheme
characters; it is lowercased. -/
def splitScheme (u : Str) : Str × Str :=
  match u.findIdx? (· == ':') with
  | some i =>
      if 0 < i && (u.take i).all schemeChar && (u.headD ' ').isAlpha then
        (lowerStr (u.take i), u.drop (i + 1))
      else ([], u)
  | none => ([], u)

/-- Splits a leading `//netloc`, which extends up to the next `/`, `?` or `#`. -/
def splitNetloc (u : Str) : Str × Str :=
  if strStarts u (lit "//") then
    let rest := u.drop 2
    (rest.takeWhile (fun c => !(c == '/' || c == '?' || c == '#')),
     rest.dropWhile (fun c => !(c == '/' || c == '?' || c == '#')))
  else ([], u)

/-- Splits `;params` from the last path segment (`urllib.parse._splitparams`). -/
def splitParams (p : Str) : Str × Str :=
  match splitLastChar '/' p with
  | some (a, b) =>
      match splitFirstChar ';' b with
      | (pre, some post) => (a ++ '/' :: pre, post)
      | (_, none) => (p, [])
  | none =>
      match splitFirstChar ';' p with
      | (pre, some post) => (pre, post)
      | (_, none) => (p, [])

/-- Embeds `urllib.parse.urlparse` (via `urlsplit` plus params splitting). -/
def urlparse (u0 : Str) : UrlParts :=
  let u1 := u0.filter (fun c => !urlUnsafeChar c)
  let sr := splitScheme u1
  let nr := splitNetloc sr.2
  let r3 := splitFirstChar '#' nr.2
  let r4 := splitFirstChar '?' r3.1
  let pq := splitParams r4.1
  ⟨sr.1, nr.1, pq.1, pq.2, r4.2.getD [], r3.2.getD []⟩

/-- Embeds `urllib.parse.urlunparse` (hence `ParseResult.geturl`). -/
def urlunparse (p : UrlParts) : Str :=
  let url0 := p.path ++ (if p.params != [] then ';' :: p.params else [])
  let url1 :=
    if p.netloc != [] || strStarts url0 (lit "//") then
      lit "//" ++ p.netloc ++
        (if url0 != [] && !(strStarts url0 (lit "/")) then '/' :: url0 else url0)
    else url0
  let url2 := if p.scheme != [] then p.scheme ++ ':' :: url1 else url1
  let url3 := if p.query != [] then url2 ++ '?' :: p.query else url2
  if p.fragment != [] then url3 ++ '#' :: p.fragment else url3

/-- Embeds `_strip_fragment`: parse, clear the fragment, rebuild via `geturl`. -/
def stripFragment (u : Str) : Str := urlunparse { urlparse u with fragment := [] }

/-- Embeds `_is_http_url`: the parsed scheme is `http` or `https`. -/
def isHttpUrl (u : Str) : Bool :=
  let s := (urlparse u).scheme
  s == lit "http" || s == lit "https"

/-! ## Asset Namer (embedding of `_safe_filename_from_url`) -/

/-- The character class `[A-Za-z0-9._-]` kept by the sanitizer. -/
def goodChar (c : Char) : Bool := c.isAlphanum || c == '.' || c == '_' || c == '-'

/-- Worker for `sanitizeRuns`; the boolean records whether the previous
character belonged to a run of disallowed characters, so that each maximal
run collapses to a single underscore. -/
def sanGo : Bool → Str → Str
  | _, [] => []
  | prevBad, c :: t =>
      if goodChar c then c :: sanGo false t
      else if prevBad then sanGo true t
      else '_' :: sanGo true t

/-- Embeds `re.sub(r"[^A-Za-z0-9._-]+", "_", base)`. -/
def sanitizeRuns (s : Str) : Str := sanGo false s

/-- Embeds `posixpath.basename`: the part after the last slash. -/
def posixBasename (p : Str) : Str :=
  match splitLastChar '/' p with
  | some (_, b) => b
  | none => p

/-- Embeds `os.path.splitext` (POSIX flavour): the extension starts at the
last dot of the last path segment, provided some earlier character of that
segment is not a dot (so dotfiles such as `.js` have no extension). -/
def splitext (p : Str) : Str × Str :=
  let df : Str × Str :=
    match splitLastChar '/' p with
    | some (d, f) => (d ++ ['/'], f)
    | none => ([], p)
  match splitLastChar '.' df.2 with
  | none => (p, [])
  | some (pre, post) => if pre.any (· != '.') then (df.1 ++ pre, '.' :: post) else (p, [])

/-- Embeds `_safe_filename_from_url` (`tools/scrape_site_static.py` 54-69):
keep the sanitized basename when it has a dot, otherwise hash the whole
URL; URLs with a query get an 8-hex digest of the query spliced in before
the extension. -/
def safeFilename (url : Str) : Str :=
  let parsed := urlparse url
  let base := posixBasename parsed.path
  let name :=
    if base != [] && strContains base (lit ".") then sanitizeRuns base
    else lit "asset_" ++ (sha256Hex (utf8Encode url)).take 16
  if parsed.query != [] then
    let qh := (sha256Hex (utf8Encode parsed.query)).take 8
    let re := splitext name
    re.1 ++ '_' :: (qh ++ re.2)
  else name

/-! ## Asset Fetcher (embedding of `_download_binary`) -/

/-- Filesystem paths as component lists (`pathlib.Path`). -/
abbrev FPath := List String

/-- The filesystem: an association list from paths to byte contents, newest
entry first.  `_ensure_parent` (directory creation) has no observable
effect in this model. -/
abbrev FS := List (FPath × List Nat)

/-- Reads a file: the newest entry for the path, if any. -/
def fsGet : FS → FPath → Option (List Nat)
  | [], _ => none
  | (q, b) :: t, p => if q = p then some b else fsGet t p

/-- Result of `_download_binary`: the filesystem afterwards, `some
downloaded` on normal return or `none` when the call raised, and the
number of network requests made. -/
structure DlResult where
  fs : FS
  res : Option Bool
  calls : Nat
deriving DecidableEq

/-- Embeds `_download_binary` (`tools/scrape_site_static.py` 93-104): keep an
existing non-empty file (no request, return `False`); otherwise perform
one `GET` on the transport `net`, where `none` models a network error or a
non-2xx status (`raise_for_status`), which raises; success writes the body
and returns `True`. -/
def downloadBinary (net : Str → Option (List Nat)) (fs : FS) (url : Str) (out : FPath) :
    DlResult :=
  if (fsGet fs out).elim false (fun b => 0 < b.length) then ⟨fs, some false, 0⟩
  else
    match net url with
    | none => ⟨fs, none, 1⟩
    | some body => ⟨(out, body) :: fs, some true, 1⟩

/-! ## Relative paths (`os.path.relpath` at the component level) -/

/-- Length of the common component prefix of two paths. -/
def commonLen : List String → List String → Nat
  | a :: ta, b :: tb => if a = b then commonLen ta tb + 1 else 0
  | _, _ => 0

/-- Embeds `os.path.relpath`: step up with `..` for the non-shared part of
`start`, then down into `p`; an empty result is the current directory. -/
def relpathComps (p start : List String) : List String :=
  let c := commonLen p start
  let res := List.replicate (start.length - c) ".." ++ p.drop c
  if res = [] then ["."] else res

/-- Joins path components with slashes (the POSIX separator, matching the
`.replace(os.sep, "/")` in the source). -/
def joinComps : List String → Str
  | [] => []
  | [x] => x.data
  | x :: t => x.data ++ '/' :: joinComps t

/-! ## CSS Rewriter and HTML attribute localization -/

/-- The entity-mangling repair applied to raw references before resolution
(identical in `_rewrite_css_and_download_assets.repl` and in
`localize_attr`). -/
def entityRepair (s : Str) : Str :=
  let s1 := strReplace s (lit "®istryLibrariesTopology") (lit "registryLibrariesTopology")
  let s2 := strReplace s1 (lit "falseregistryLibrariesTopology")
      (lit "false&registryLibrariesTopology")
  strReplace s2 (lit "trueregistryLibrariesTopology") (lit "true&registryLibrariesTopology")

/-- Result of rewriting one reference: the produced text, the filesystem,
and the number of network requests. -/
structure TokResult where
  text : Str
  fs : FS
  calls : Nat
deriving DecidableEq

/-- Embeds `_rewrite_css_and_download_assets.repl` for one `url(...)` token
(`tools/scrape_site_static.py` 123-152).  `orig` is the full matched token
`match.group(0)`, `q` the quote group, `inner` the URL group; `resolve` is
`urllib.parse.urljoin` (`_normalize_url`), a collaborator passed as a
parameter. -/
def cssRepl (resolve : Str → Str → Str) (net : Str → Option (List Nat)) (fs : FS)
    (cssUrl : Str) (outCssPath assetsDir : FPath) (orig q inner : Str) : TokResult :=
  let raw := pyStrip inner
  if strStarts raw (lit "data:") then ⟨orig, fs, 0⟩
  else
    let raw := entityRepair raw
    let absUrl := stripFragment (resolve cssUrl raw)
    if !isHttpUrl absUrl then ⟨orig, fs, 0⟩
    else
      let localPath := assetsDir ++ [String.mk (safeFilename absUrl)]
      let dl := downloadBinary net fs absUrl localPath
      match dl.res with
      | none => ⟨orig, dl.fs, dl.calls⟩
      | some _ =>
          ⟨lit "url(" ++ q ++ joinComps (relpathComps localPath outCssPath.dropLast) ++
             q ++ [')'], dl.fs, dl.calls⟩

/-- Result of `localize_attr`: the new attribute value (`none` leaves the
attribute unchanged), the filesystem, and the number of network
requests. -/
structure AttrResult where
  newVal : Option Str
  fs : FS
  calls : Nat
deriving DecidableEq

/-- The hard-coded runtime-bundle pattern kept remote by `localize_attr`. -/
def thunderboltPat : Str := lit "siteassets.parastorage.com/pages/pages/thunderbolt"

/-- Embeds `_html_rewrite_and_download_assets.localize_attr`
(`tools/scrape_site_static.py` 295-339) for a string-valued attribute
(`val = none` models a missing attribute; multi-valued attributes are also
skipped by the source). -/
def localizeAttr (resolve : Str → Str → Str) (net : Str → Option (List Nat)) (fs : FS)
    (pageUrl : Str) (outHtmlPath assetsDir : FPath) (val : Option Str) : AttrResult :=
  match val with
  | none => ⟨none, fs, 0⟩
  | some v =>
      if v = [] then ⟨none, fs, 0⟩
      else
        let raw := pyStrip v
        if strStarts raw (lit "data:") then ⟨none, fs, 0⟩
        else if strStarts raw (lit "mailto:") || strStarts raw (lit "tel:") then ⟨none, fs, 0⟩
        else if strStarts raw (lit "#") then ⟨none, fs, 0⟩
        else
          let raw := entityRepair raw
          let absUrl := stripFragment (resolve pageUrl raw)
          if !isHttpUrl absUrl then ⟨none, fs, 0⟩
          else if strContains absUrl thunderboltPat then ⟨some absUrl, fs, 0⟩
          else
            let localPath := assetsDir ++ [String.mk (safeFilename absUrl)]
            let dl := downloadBinary net fs absUrl localPath
            match dl.res with
            | none => ⟨none, dl.fs, dl.calls⟩
            | some _ =>
                ⟨some (joinComps (relpathComps localPath outHtmlPath.dropLast)),
                 dl.fs, dl.calls⟩

/-! ## Internal anchor rewriting -/

/-- Embeds the internal-anchor rewrite of `_html_rewrite_and_download_assets`
(`tools/scrape_site_static.py` 417-442).  Returns `none` when the anchor is
left unchanged, `some h` when the `href` attribute is set to `h`; `resolve`
is `urllib.parse.urljoin` (`_normalize_url`). -/
def rewriteAnchor (resolve : Str → Str → Str) (pageUrl : Str) (href : Str) : Option Str :=
  let h := pyStrip href
  if strStarts h (lit "#") || strStarts h (lit "mailto:") || strStarts h (lit "tel:") then none
  else
    let parsed := urlparse (resolve pageUrl h)
    let pageParsed := urlparse pageUrl
    if parsed.netloc ≠ pageParsed.netloc then none
    else
      let frag := if parsed.fragment ≠ [] then '#' :: parsed.fragment else []
      let query := if parsed.query ≠ [] then '?' :: parsed.query else []
      let path := if parsed.path = [] then lit "/" else parsed.path
      if path = lit "/" then
        some (strReplace (lit "/" ++ query ++ frag) (lit "/?") (lit "?"))
      else
        some (strReplace (rstripChars ['/'] path ++ '/' :: (query ++ frag ++ lit "/"))
          (lit "//") (lit "/"))

/-! ## Worker Bootstrap Localizer (embedding of `_localize_wix_client_worker`) -/

/-- JSON values of the `wix-viewer-model` blob.  Numbers are modelled as
integers; `walk` returns every non-string scalar unchanged, so the exact
carrier of the scalar constructors is immaterial. -/
inductive Json where
  | obj : List (String × Json) → Json
  | arr : List Json → Json
  | str : Str → Json
  | num : Int → Json
  | bool : Bool → Json
  | null : Json

/-- Key lookup in a JSON object (Python `dict.get`). -/
def jGet : List (String × Json) → String → Option Json
  | [], _ => none
  | (k, v) :: t, key => if k = key then some v else jGet t key

/-- Embeds the `model.get("site", {}).get("externalBaseUrl")` lookup together
with its `try`/`except` guard: any shape mismatch yields `none`.  (A
present value of non-string type would raise uncaught at the `rstrip`
call in the source; the model covers the string case, the only one its
caller can use.) -/
def externalBaseUrl : Json → Option Str
  | .obj kvs =>
      match jGet kvs "site" with
      | some (.obj kvs2) =>
          match jGet kvs2 "externalBaseUrl" with
          | some (.str s) => some s
          | _ => none
      | _ => none
  | _ => none

/-- State threaded through the worker localization: the filesystem, the
number of network requests, and the `changed` flag. -/
structure WState where
  fs : FS
  calls : Nat
  changed : Bool
deriving DecidableEq

/-- Embeds `maybe_rewrite_value` (`tools/scrape_site_static.py` 219-265).
`model` is the whole parsed blob (consulted for `site.externalBaseUrl`),
`assetsDir` the assets directory; `resolve` is `urllib.parse.urljoin`.
The source's `out_path.relative_to(site_root)` always succeeds because
`site_root = assets_dir.parent` is a prefix of `out_path`; it is embedded
as the corresponding component drop. -/
def maybeRewriteValue (resolve : Str → Str → Str) (net : Str → Option (List Nat))
    (model : Json) (assetsDir : FPath) (v : Str) (st : WState) : Str × WState :=
  if !strContains v (lit "clientWorker.") && !strContains v (lit "wix-thunderbolt") then (v, st)
  else if !strContains v (lit "clientWorker.") then (v, st)
  else
    let raw := stripFragment v
    let absOpt : Option Str :=
      if isHttpUrl raw then some raw
      else if strStarts raw (lit "/") then
        match externalBaseUrl model with
        | some eb =>
            if eb ≠ [] then
              some (resolve (rstripChars ['/'] eb ++ lit "/") (lstripChars ['/'] raw))
            else none
        | none => none
      else none
    match absOpt with
    | none => (v, st)
    | some absUrl =>
        let outPath := assetsDir ++ ["wix-workers", String.mk (safeFilename absUrl)]
        let dl := downloadBinary net st.fs absUrl outPath
        match dl.res with
        | none => (v, ⟨dl.fs, st.calls + dl.calls, st.changed⟩)
        | some _ =>
            (lit "/" ++ joinComps (outPath.drop assetsDir.dropLast.length),
             ⟨dl.fs, st.calls + dl.calls, true⟩)

mutual

/-- Embeds the deep walk `walk` (`tools/scrape_site_static.py` 267-277):
dictionary values and list elements are rewritten recursively in order,
strings through `maybe_rewrite_value`, other scalars unchanged. -/
def walk (resolve : Str → Str → Str) (net : Str → Option (List Nat)) (model : Json)
    (assetsDir : FPath) : Json → WState → Json × WState
  | .obj kvs, st =>
      let r := walkObj resolve net model assetsDir kvs st
      (.obj r.1, r.2)
  | .arr xs, st =>
      let r := walkArr resolve net model assetsDir xs st
      (.arr r.1, r.2)
  | .str s, st =>
      let r := maybeRewriteValue resolve net model assetsDir s st
      (.str r.1, r.2)
  | j, st => (j, st)

/-- Walks the key-value pairs of an object in order. -/
def walkObj (resolve : Str → Str → Str) (net : Str → Option (List Nat)) (model : Json)
    (assetsDir : FPath) : List (String × Json) → WState → List (String × Json) × WState
  | [], st => ([], st)
  | (k, v) :: t, st =>
      let rv := walk resolve net model assetsDir v st
      let rt := walkObj resolve net model assetsDir t rv.2
      ((k, rv.1) :: rt.1, rt.2)

/-- Walks the elements of an array in order. -/
def walkArr (resolve : Str → Str → Str) (net : Str → Option (List Nat)) (model : Json)
    (assetsDir : FPath) : List Json → WState → List Json × WState
  | [], st => ([], st)
  | x :: t, st =>
      let rx := walk resolve net model assetsDir x st
      let rt := walkArr resolve net model assetsDir t rx.2
      (rx.1 :: rt.1, rt.2)

end

mutual

/-- The structural skeleton of a JSON value: every string is blanked while
keys, ordering, lengths and non-string scalars are kept. -/
def skeleton : Json → Json
  | .obj kvs => .obj (skeletonObj kvs)
  | .arr xs => .arr (skeletonArr xs)
  | .str _ => .str []
  | j => j

/-- Skeleton of an object's key-value list. -/
def skeletonObj : List (String × Json) → List (String × Json)
  | [] => []
  | (k, v) :: t => (k, skeleton v) :: skeletonObj t

/-- Skeleton of an array's element list. -/
def skeletonArr : List Json → List Json
  | [] => []
  | x :: t => skeleton x :: skeletonArr t

end

/-! ## Runtime Stripper (embedding of `tools/strip_wix_runtime.py`) -/

/-- Parse-tree nodes of the stripped HTML documents (the BeautifulSoup
document-tree collaborator, at the node level). -/
inductive Node where
  | elem : String → List (String × String) → List Node → Node
  | text : String → Node
  | comment : String → Node

/-- First value of an attribute (`Tag.get`). -/
def getAttr : List (String × String) → String → Option String
  | [], _ => none
  | (k, v) :: t, key => if k = key then some v else getAttr t key

/-- Sets an attribute (`tag[k] = v`): replaces an existing entry, else
appends. -/
def setAttr : List (String × String) → String → String → List (String × String)
  | [], key, v => [(key, v)]
  | (k, w) :: t, key, v => if k = key then (key, v) :: t else (k, w) :: setAttr t key v

/-- Splits a string on whitespace runs (Python `str.split()` with no
argument, used by BeautifulSoup for multi-valued attributes). -/
def splitWsGo (cur : Str) : Str → List Str
  | [] => if cur = [] then [] else [cur.reverse]
  | c :: t =>
      if pySpace c then
        if cur = [] then splitWsGo [] t else cur.reverse :: splitWsGo [] t
      else splitWsGo (c :: cur) t

/-- The whitespace-separated tokens of a string. -/
def splitWs (s : Str) : List Str := splitWsGo [] s

/-- The `rel` tokens of a link (`link.get("rel") or []`, multi-valued). -/
def relValues (attrs : List (String × String)) : List Str :=
  match getAttr attrs "rel" with
  | some v => splitWs v.data
  | none => []

/-- Embeds `is_remote_url` (`REMOTE_RE = ^(https?:)?//`, case-insensitive);
a missing or empty value is not remote. -/
def isRemoteUrl : Option String → Bool
  | none => false
  | some u =>
      if u.data = [] then false
      else
        let l := lowerStr u.data
        strStarts l (lit "//") || strStarts l (lit "http://") || strStarts l (lit "https://")

/-- Embeds the `WIX_HOST_RE` search
(`wixstatic.com|parastorage.com|wix.com`, case-insensitive). -/
def wixHostSearch (s : Str) : Bool :=
  let l := lowerStr s
  strContains l (lit "wixstatic.com") || strContains l (lit "parastorage.com") ||
    strContains l (lit "wix.com")

/-- Embeds `is_wix_remote`; a missing or empty value is not Wix-remote. -/
def isWixRemote : Option String → Bool
  | none => false
  | some u => if u.data = [] then false else wixHostSearch u.data

mutual

/-- Embeds BeautifulSoup's `.string`: the single string descendant reached
through unique children, if any (comments are `NavigableString`s too). -/
def nodeString : Node → Option String
  | .text s => some s
  | .comment s => some s
  | .elem _ _ c => singleString c
termination_by structural n => n

/-- The `.string` of a child list: defined only for a singleton child. -/
def singleString : List Node → Option String
  | [c] => nodeString c
  | _ => none
termination_by structural l => l

end

/-- The script rule (lines 64-73): every `<script>` is dropped unless its
`type`, lowercased, is exactly `application/ld+json`. -/
def scriptKept (attrs : List (String × String)) : Bool :=
  lowerStr ((getAttr attrs "type").getD "").data == lit "application/ld+json"

/-- The link-removal rule (lines 76-93): remote or Wix-hosted `href`, or a
`rel` containing preload/prefetch/modulepreload. -/
def linkRemoved (attrs : List (String × String)) : Bool :=
  let href := getAttr attrs "href"
  if isRemoteUrl href || isWixRemote href then true
  else
    let rs := (relValues attrs).map lowerStr
    rs.contains (lit "preload") || rs.contains (lit "prefetch") ||
      rs.contains (lit "modulepreload")

/-- The style-removal rule (lines 99-112): remote/Wix `data-url` or
`data-href`, or text content naming a Wix host without an `@font-face`
rule. -/
def styleRemoved (attrs : List (String × String)) (children : List Node) : Bool :=
  let du := getAttr attrs "data-url"
  let dh := getAttr attrs "data-href"
  if isRemoteUrl du || isWixRemote du || isRemoteUrl dh || isWixRemote dh then true
  else
    let txt := ((singleString children).getD "").data
    wixHostSearch txt && !strContains txt (lit "@font-face")

mutual

/-- Removal of the first `<base>` element within one node's subtree, the
node itself included (`soup.find("base")` then `decompose`): returns the
replacement nodes (empty when the node itself was the base) and whether
one was found. -/
def removeFirstBaseN : Node → List Node × Bool
  | .elem tg a c =>
      if tg = "base" then ([], true)
      else
        let rc := removeFirstBaseL c
        ([.elem tg a rc.1], rc.2)
  | n => ([n], false)
termination_by structural n => n

/-- Removal of the first `<base>` element in a forest, in document order. -/
def removeFirstBaseL : List Node → List Node × Bool
  | [] => ([], false)
  | n :: t =>
      let rn := removeFirstBaseN n
      if rn.2 then (rn.1 ++ t, true)
      else
        let rt := removeFirstBaseL t
        (n :: rt.1, rt.2)
termination_by structural l => l

end

mutual

/-- The script sweep (lines 64-73) on one node: `none` when it is dropped. -/
def removeScriptsN : Node → Option Node
  | .elem tg a c =>
      if tg = "script" && !scriptKept a then none
      else some (.elem tg a (removeScriptsL c))
  | n => some n
termination_by structural n => n

/-- The script sweep on a forest. -/
def removeScriptsL : List Node → List Node
  | [] => []
  | n :: t =>
      match removeScriptsN n with
      | none => removeScriptsL t
      | some m => m :: removeScriptsL t
termination_by structural l => l

end

mutual

/-- The link sweep (lines 76-93) on one node: `none` when it is dropped. -/
def removeLinksN : Node → Option Node
  | .elem tg a c =>
      if tg = "link" && linkRemoved a then none
      else some (.elem tg a (removeLinksL c))
  | n => some n
termination_by structural n => n

/-- The link sweep on a forest. -/
def removeLinksL : List Node → List Node
  | [] => []
  | n :: t =>
      match removeLinksN n with
      | none => removeLinksL t
      | some m => m :: removeLinksL t
termination_by structural l => l

end

mutual

/-- The style sweep (lines 99-112) on one node: `none` when it is dropped. -/
def removeStylesN : Node → Option Node
  | .elem tg a c =>
      if tg = "style" && styleRemoved a c then none
      else some (.elem tg a (removeStylesL c))
  | n => some n
termination_by structural n => n

/-- The style sweep on a forest. -/
def removeStylesL : List Node → List Node
  | [] => []
  | n :: t =>
      match removeStylesN n with
      | none => removeStylesL t
      | some m => m :: removeStylesL t
termination_by structural l => l

end

/-- The runtime custom elements unwrapped by the stripper (lines 115-118). -/
def wixTags : List String := ["wix-dropdown-menu", "wix-video", "wix-bg-image", "wix-iframe"]

mutual

/-- Unwrapping of runtime custom elements on one node: a wrapper is replaced
by its (recursively unwrapped) children (`el.unwrap()` over all
occurrences, nested ones included, since `find_all` collects them before
unwrapping). -/
def unwrapWixN : Node → List Node
  | .elem tg a c =>
      if wixTags.contains tg then unwrapWixL c
      else [.elem tg a (unwrapWixL c)]
  | n => [n]
termination_by structural n => n

/-- Unwrapping of runtime custom elements on a forest. -/
def unwrapWixL : List Node → List Node
  | [] => []
  | n :: t => unwrapWixN n ++ unwrapWixL t
termination_by structural l => l

end

mutual

/-- Adds `lang="en"` to the first `<html>` element when its `lang` is missing
or empty (lines 121-122), on one node; the flag reports whether the
element was found. -/
def ensureLangN : Node → Node × Bool
  | .elem tg a c =>
      if tg = "html" then
        (if ((getAttr a "lang").getD "") = "" then .elem tg (setAttr a "lang" "en") c
         else .elem tg a c, true)
      else
        let rc := ensureLangL c
        (.elem tg a rc.1, rc.2)
  | n => (n, false)
termination_by structural n => n

/-- The `lang` pass on a forest, in document order. -/
def ensureLangL : List Node → List Node × Bool
  | [] => ([], false)
  | n :: t =>
      let rn := ensureLangN n
      if rn.2 then (rn.1 :: t, true)
      else
        let rt := ensureLangL t
        (n :: rt.1, rt.2)
termination_by structural l => l

end

/-- The marker comment appended to the head (line 126). -/
def markerComment : String := " Stripped Wix runtime for static hosting "

mutual

/-- Appends the marker comment to the first `<head>` element (125-126), on
one node; the flag reports whether the element was found. -/
def appendMarkerN : Node → Node × Bool
  | .elem tg a c =>
      if tg = "head" then (.elem tg a (c ++ [.comment markerComment]), true)
      else
        let rc := appendMarkerL c
        (.elem tg a rc.1, rc.2)
  | n => (n, false)
termination_by structural n => n

/-- The marker pass on a forest, in document order. -/
def appendMarkerL : List Node → List Node × Bool
  | [] => ([], false)
  | n :: t =>
      let rn := appendMarkerN n
      if rn.2 then (rn.1 :: t, true)
      else
        let rt := appendMarkerL t
        (n :: rt.1, rt.2)
termination_by structural l => l

end

/-- Embeds `strip_html` (`tools/strip_wix_runtime.py` 49-129) on the parsed
document forest, with the passes in source order; parsing and
serialization (`BeautifulSoup(html, "lxml")`, `str(soup)`) are the
parse/serialize collaborators. -/
def stripDoc (doc : List Node) : List Node :=
  let d1 := (removeFirstBaseL doc).1
  let d2 := removeScriptsL d1
  let d3 := removeLinksL d2
  let d4 := removeStylesL d3
  let d5 := unwrapWixL d4
  let d6 := (ensureLangL d5).1
  (appendMarkerL d6).1

mutual

/-- Number of comment nodes in one node's subtree. -/
def commentsN : Node → Nat
  | .elem _ _ c => commentsL c
  | .comment _ => 1
  | .text _ => 0
termination_by structural n => n

/-- Number of comment nodes in a forest. -/
def commentsL : List Node → Nat
  | [] => 0
  | n :: t => commentsN n + commentsL t
termination_by structural l => l

end

/-! ## `process_file` (strip step, file level) -/

/-- Text files on disk for the strip step. -/
abbrev TextFS := List (FPath × String)

/-- Reads a text file: the newest entry for the path, if any. -/
def tfsGet : TextFS → FPath → Option String
  | [], _ => none
  | (q, s) :: t, p => if q = p then some s else tfsGet t p

/-- Embeds `strip_html` at the text level: parse, strip, serialize, with the
parse/serialize pair supplied as collaborators. -/
def stripHtmlText (parse : String → List Node) (ser : List Node → String) (h : String) :
    String := ser (stripDoc (parse h))

/-- Embeds `process_file` (`tools/strip_wix_runtime.py` 132-140): read the
file, strip, report whether the text changed, and write back only when
`in_place` is set and it did change.  `none` models the `read_text`
exception for a missing file. -/
def processFile (parse : String → List Node) (ser : List Node → String) (fs : TextFS)
    (path : FPath) (inPlace : Bool) : Option (TextFS × FPath × Bool) :=
  match tfsGet fs path with
  | none => none
  | some original =>
      let stripped := stripHtmlText parse ser original
      let changed := stripped != original
      let fs' := if inPlace && changed then (path, stripped) :: fs else fs
      some (fs', path, changed)

/-- A minimal document with one inline style block carrying text `txt`,
used to exercise the stripper's style rule. -/
def styleProbe (txt : String) : List Node :=
  [.elem "html" [] [.elem "head" [] [],
    .elem "body" [] [.elem "style" [] [.text txt]]]]

/-- The query-free part of `_safe_filename_from_url`: the name computed
before the query digest is spliced in (a reading aid for the naming
lemmas; `safeFilename` is definitionally this followed by the splice). -/
def nameNoQuery (u : Str) : Str :=
  if posixBasename (urlparse u).path != [] &&
      strContains (posixBasename (urlparse u).path) (lit ".") then
    sanitizeRuns (posixBasename (urlparse u).path)
  else lit "asset_" ++ (sha256Hex (utf8Encode u)).take 16

/-! # Theorems -/

/-- FIPS 180-4 test vector for the embedded SHA-256. -/
theorem sha256Hex_abc :
    sha256Hex (utf8Encode (lit "abc")) =
      lit "ba7816bf8f01cfea414140de5dae2223b00361a396177a9cb410ff61f20015ad" := by
  decide

/-- Parser sanity check on a representative absolute URL. -/
theorem urlparse_sample :
    urlparse (lit "https://sameHost/news?x=1#y") =
      ⟨lit "https", lit "sameHost", lit "/news", [], lit "x=1", lit "y"⟩ := by
  decide

/-- Fragment stripping keeps scheme, netloc, path and query. -/
theorem stripFragment_sample :
    stripFragment (lit "https://a/b?q#f") = lit "https://a/b?q" ∧
      stripFragment (lit "/x#f") = lit "/x" := by
  decide

/-- Naming sanity check: sanitized basename with query digest spliced in. -/
theorem safeFilename_sample :
    safeFilename (lit "http://h/f.js?a=45825") = lit "f_6698f241.js" := by
  decide

/-- C1: at the spec's own example — an anchor to `https://sameHost/news?x=1#y`
on a page served from `sameHost` — the rewrite of
`_html_rewrite_and_download_assets` produces `/news/?x=1#y/`, a trailing
slash landing after the fragment, not the `/news/?x=1#y` stated by the
claim.  (The reference is an absolute `http(s)` URL, for which `urljoin`
returns the reference itself, so the resolver is the identity here.) -/
theorem c1_anchor_trailing_slash_bug :
    rewriteAnchor (fun _ r => r) (lit "https://sameHost/")
        (lit "https://sameHost/news?x=1#y") = some (lit "/news/?x=1#y/") ∧
      (lit "/news/?x=1#y/" : Str) ≠ lit "/news/?x=1#y" := by
  exact ⟨by decide, by decide⟩

/-- C2: the Runtime Stripper is not idempotent — on the document
`<html><head></head><body></body></html>` the second pass appends a second
marker comment to the head, so stripping twice differs from stripping
once. -/
theorem c2_strip_not_idempotent :
    stripDoc (stripDoc [.elem "html" [] [.elem "head" [] [], .elem "body" [] []]]) ≠
      stripDoc [.elem "html" [] [.elem "head" [] [], .elem "body" [] []]] := by
  intro h
  have hc := congrArg commentsL h
  exact absurd hc (by decide)

/-- C4 counterexample: with a transport that delivers an empty body, the
first `ensureLocal` call writes a zero-length file, so the second call
fetches again — two network calls in total, and the second call returns
`True` rather than the claimed `False`. -/
theorem c4_empty_body_counterexample :
    (downloadBinary (fun _ => some []) [] (lit "http://e/x") ["site", "assets", "x"]).calls +
        (downloadBinary (fun _ => some [])
          (downloadBinary (fun _ => some []) [] (lit "http://e/x") ["site", "assets", "x"]).fs
          (lit "http://e/x") ["site", "assets", "x"]).calls = 2 ∧
      (downloadBinary (fun _ => some [])
          (downloadBinary (fun _ => some []) [] (lit "http://e/x") ["site", "assets", "x"]).fs
          (lit "http://e/x") ["site", "assets", "x"]).res = some true := by
  exact ⟨by decide, by decide⟩

/-- C4 amended: when the destination exists with non-zero size, `ensureLocal`
returns `False`, performs no network call and leaves the filesystem
untouched; and starting from an absent destination, when the fetch
delivers a non-empty body, two successive calls perform exactly one
network call between them, the first returning `True`, the second `False`,
with the stored content unchanged. -/
theorem c4_fetcher_idempotent_amended (net : Str → Option (List Nat)) (fs : FS)
    (url : Str) (out : FPath) :
    (∀ b, fsGet fs out = some b → 0 < b.length →
        downloadBinary net fs url out = ⟨fs, some false, 0⟩) ∧
      (∀ body, fsGet fs out = none → net url = some body → body ≠ [] →
        (downloadBinary net fs url out).calls +
            (downloadBinary net (downloadBinary net fs url out).fs url out).calls = 1 ∧
          (downloadBinary net fs url out).res = some true ∧
          (downloadBinary net (downloadBinary net fs url out).fs url out).res = some false ∧
          fsGet (downloadBinary net (downloadBinary net fs url out).fs url out).fs out =
            some body) := by
  constructor
  · intro b hb hlen
    simp [downloadBinary, hb, hlen]
  · intro body h0 hnet hne
    have hlen : 0 < body.length := List.length_pos.mpr hne
    simp [downloadBinary, h0, hnet, fsGet, hlen]

/-- Witness for the amended C4 theorem at concrete inputs. -/
theorem c4_fetcher_idempotent_amended_witness :
    downloadBinary (fun _ => some [7]) [(["a"], [1])] (lit "u") ["a"] =
        ⟨[(["a"], [1])], some false, 0⟩ ∧
      (downloadBinary (fun _ => some [7]) [] (lit "u") ["b"]).calls +
          (downloadBinary (fun _ => some [7])
            (downloadBinary (fun _ => some [7]) [] (lit "u") ["b"]).fs (lit "u") ["b"]).calls
          = 1 := by
  refine ⟨(c4_fetcher_idempotent_amended (fun _ => some [7]) [(["a"], [1])] (lit "u")
    ["a"]).1 [1] (by decide) (by decide), ?_⟩
  exact ((c4_fetcher_idempotent_amended (fun _ => some [7]) [] (lit "u") ["b"]).2 [7]
    (by decide) (by decide) (by decide)).1

/-- C5: the per-token case analysis of the CSS Rewriter — a `data:` URI, a
reference that is not http(s) after resolution and fragment stripping, or
a failed download leave the token byte-for-byte unchanged; a successful
download replaces it with `url(`, the original quote, the saved asset's
path relative to the output CSS file's directory, the original quote,
`)`. -/
theorem c5_css_rewriter_cases (resolve : Str → Str → Str) (net : Str → Option (List Nat))
    (fs : FS) (cssUrl : Str) (outCssPath assetsDir : FPath) (orig q inner : Str) :
    (strStarts (pyStrip inner) (lit "data:") = true →
        cssRepl resolve net fs cssUrl outCssPath assetsDir orig q inner = ⟨orig, fs, 0⟩) ∧
      (∀ absUrl, strStarts (pyStrip inner) (lit "data:") = false →
        absUrl = stripFragment (resolve cssUrl (entityRepair (pyStrip inner))) →
        (isHttpUrl absUrl = false →
            cssRepl resolve net fs cssUrl outCssPath assetsDir orig q inner = ⟨orig, fs, 0⟩) ∧
          (isHttpUrl absUrl = true →
            ∀ localPath, localPath = assetsDir ++ [String.mk (safeFilename absUrl)] →
            ((downloadBinary net fs absUrl localPath).res = none →
                cssRepl resolve net fs cssUrl outCssPath assetsDir orig q inner =
                  ⟨orig, (downloadBinary net fs absUrl localPath).fs,
                   (downloadBinary net fs absUrl localPath).calls⟩) ∧
              (∀ b, (downloadBinary net fs absUrl localPath).res = some b →
                cssRepl resolve net fs cssUrl outCssPath assetsDir orig q inner =
                  ⟨lit "url(" ++ q ++ joinComps (relpathComps localPath outCssPath.dropLast) ++
                     q ++ [')'],
                   (downloadBinary net fs absUrl localPath).fs,
                   (downloadBinary net fs absUrl localPath).calls⟩))) := by
  constructor
  · intro hdata
    simp [cssRepl, hdata]
  · intro absUrl hdata habs
    subst habs
    constructor
    · intro hhttp
      simp [cssRepl, hdata, hhttp]
    · intro hhttp localPath hlp
      subst hlp
      constructor
      · intro hres
        simp [cssRepl, hdata, hhttp, hres]
      · intro b hres
        simp [cssRepl, hdata, hhttp, hres]

/-- Witness for C5 at the spec's round-trip example: a reachable
`http://example.com/a.png` inside quotes becomes a relative path ending in
`a.png` with the quote style kept. -/
theorem c5_css_rewriter_cases_witness :
    cssRepl (fun _ r => r) (fun _ => some [1, 2]) [] (lit "http://h/css/m.css")
        ["site", "assets", "m.css"] ["site", "assets"]
        (lit "url('http://example.com/a.png')") ['\''] (lit "http://example.com/a.png") =
      ⟨lit "url('a.png')", [(["site", "assets", "a.png"], [1, 2])], 1⟩ := by
  have h := (((c5_css_rewriter_cases (fun _ r => r) (fun _ => some [1, 2]) []
      (lit "http://h/css/m.css") ["site", "assets", "m.css"] ["site", "assets"]
      (lit "url('http://example.com/a.png')") ['\'']
      (lit "http://example.com/a.png")).2 _ (by decide) rfl).2 (by decide) _ rfl).2
      true (by decide)
  exact h.trans (by decide)

/-- C7: a reference whose resolved, fragment-stripped URL matches the
hard-coded oversized-querystring runtime-bundle pattern is rewritten to
that absolute remote URL, with no download and no change to the
filesystem. -/
theorem c7_thunderbolt_kept_remote (resolve : Str → Str → Str)
    (net : Str → Option (List Nat)) (fs : FS) (pageUrl : Str)
    (outHtmlPath assetsDir : FPath) (v : Str) (hne : v ≠ [])
    (hdata : strStarts (pyStrip v) (lit "data:") = false)
    (hmail : strStarts (pyStrip v) (lit "mailto:") = false)
    (htel : strStarts (pyStrip v) (lit "tel:") = false)
    (hhash : strStarts (pyStrip v) (lit "#") = false) :
    ∀ absUrl, absUrl = stripFragment (resolve pageUrl (entityRepair (pyStrip v))) →
      isHttpUrl absUrl = true → strContains absUrl thunderboltPat = true →
      localizeAttr resolve net fs pageUrl outHtmlPath assetsDir (some v) =
        ⟨some absUrl, fs, 0⟩ := by
  intro absUrl habs hhttp hpat
  subst habs
  simp [localizeAttr, hne, hdata, hmail, htel, hhash, hhttp, hpat]

/-- Witness for C7: a thunderbolt runtime-bundle reference is set to its
absolute URL and nothing is downloaded. -/
theorem c7_thunderbolt_kept_remote_witness :
    localizeAttr (fun _ r => r) (fun _ => none) [] (lit "https://h/")
        ["site", "index.html"] ["site", "assets"]
        (some (lit "https://siteassets.parastorage.com/pages/pages/thunderbolt/page.js?x=1")) =
      ⟨some (lit "https://siteassets.parastorage.com/pages/pages/thunderbolt/page.js?x=1"),
       [], 0⟩ := by
  have h := c7_thunderbolt_kept_remote (fun _ r => r) (fun _ => none) [] (lit "https://h/")
      ["site", "index.html"] ["site", "assets"]
      (lit "https://siteassets.parastorage.com/pages/pages/thunderbolt/page.js?x=1")
      (by decide) (by decide) (by decide) (by decide) (by decide) _ rfl (by decide) (by decide)
  exact h.trans (by decide)

/-- C9: `process_file` returns the text-changed flag exactly when the
stripped output differs from the original text, writes back only when
`in_place` is set and the text changed, and in particular leaves the
filesystem untouched whenever `in_place` is false or nothing changed. -/
theorem c9_process_file_frame (parse : String → List Node) (ser : List Node → String)
    (fs : TextFS) (path : FPath) (inPlace : Bool) (original : String)
    (h : tfsGet fs path = some original) :
    processFile parse ser fs path inPlace =
        some (if inPlace && (stripHtmlText parse ser original != original) then
                (path, stripHtmlText parse ser original) :: fs
              else fs, path, stripHtmlText parse ser original != original) ∧
      ((stripHtmlText parse ser original != original) = true ↔
        stripHtmlText parse ser original ≠ original) ∧
      (inPlace = false ∨ (stripHtmlText parse ser original != original) = false →
        (if inPlace && (stripHtmlText parse ser original != original) then
          (path, stripHtmlText parse ser original) :: fs else fs) = fs) := by
  refine ⟨by simp [processFile, h], by simp [bne_iff_ne], ?_⟩
  rintro (h1 | h1) <;> simp [h1]

/-- Witness for C9 at concrete collaborators: the stripped text differs, so
with `in_place` set the file is rewritten and the flag is `true`. -/
theorem c9_process_file_frame_witness :
    processFile (fun _ => []) (fun _ => "x") [([], "y")] [] true =
      some ([([], "x"), ([], "y")], [], true) := by
  have h := (c9_process_file_frame (fun _ => []) (fun _ => "x") [([], "y")] [] true "y"
    (by decide)).1
  exact h.trans (by decide)

/-- C8: an inline style block (no `data-url`/`data-href`) whose text mentions
a runtime-vendor hostname survives stripping exactly when the text also
contains `@font-face`; without `@font-face` the block is removed. -/
theorem c8_fontface_preservation (txt : String)
    (hwix : wixHostSearch txt.data = true) :
    (strContains txt.data (lit "@font-face") = true →
        stripDoc (styleProbe txt) =
          [.elem "html" [("lang", "en")]
            [.elem "head" [] [.comment markerComment],
             .elem "body" [] [.elem "style" [] [.text txt]]]]) ∧
      (strContains txt.data (lit "@font-face") = false →
        stripDoc (styleProbe txt) =
          [.elem "html" [("lang", "en")]
            [.elem "head" [] [.comment markerComment], .elem "body" [] []]]) := by
  constructor <;> intro hff <;>
    simp [styleProbe, stripDoc, removeFirstBaseL, removeFirstBaseN, removeScriptsL,
      removeScriptsN, removeLinksL, removeLinksN, removeStylesL, removeStylesN,
      unwrapWixL, unwrapWixN, ensureLangL, ensureLangN, appendMarkerL, appendMarkerN,
      scriptKept, linkRemoved, styleRemoved, getAttr, setAttr, singleString, nodeString,
      isRemoteUrl, isWixRemote, wixTags, hwix, hff]

/-- Witness for C8: a block with `parastorage.com` and an `@font-face` rule
survives the strip. -/
theorem c8_fontface_preservation_witness :
    stripDoc (styleProbe "@font-face src parastorage.com") =
      [.elem "html" [("lang", "en")]
        [.elem "head" [] [.comment markerComment],
         .elem "body" [] [.elem "style" [] [.text "@font-face src parastorage.com"]]]] :=
  (c8_fontface_preservation "@font-face src parastorage.com" (by decide)).1 (by decide)

/-- C6: for a value containing the worker marker that is a site-root-relative
path (not http(s), leading slash), the localizer leaves it unchanged when
`site.externalBaseUrl` is absent; when the base is present and the
download succeeds, the value becomes the site-root-absolute
`/assets/wix-workers/<name>` with `<name>` the Asset Namer's filename for
the resolved absolute URL (the assets directory being `<outDir>/assets` as
set up by `main`). -/
theorem c6_worker_localizer (resolve : Str → Str → Str) (net : Str → Option (List Nat))
    (model : Json) (outDir : FPath) (v : Str) (st : WState)
    (hmark : strContains v (lit "clientWorker.") = true)
    (hhttp : isHttpUrl (stripFragment v) = false)
    (hslash : strStarts (stripFragment v) (lit "/") = true) :
    (externalBaseUrl model = none →
        maybeRewriteValue resolve net model (outDir ++ ["assets"]) v st = (v, st)) ∧
      (∀ eb, externalBaseUrl model = some eb → eb ≠ [] →
        ∀ absUrl, absUrl = resolve (rstripChars ['/'] eb ++ lit "/")
            (lstripChars ['/'] (stripFragment v)) →
        ∀ b, (downloadBinary net st.fs absUrl
            ((outDir ++ ["assets"]) ++ ["wix-workers", String.mk (safeFilename absUrl)])).res
            = some b →
          maybeRewriteValue resolve net model (outDir ++ ["assets"]) v st =
            (lit "/assets/wix-workers/" ++ safeFilename absUrl,
             ⟨(downloadBinary net st.fs absUrl
                 ((outDir ++ ["assets"]) ++
                   ["wix-workers", String.mk (safeFilename absUrl)])).fs,
              st.calls + (downloadBinary net st.fs absUrl
                 ((outDir ++ ["assets"]) ++
                   ["wix-workers", String.mk (safeFilename absUrl)])).calls,
              true⟩)) := by
  constructor
  · intro hnone
    simp [maybeRewriteValue, hmark, hhttp, hslash, hnone]
  · intro eb heb hne absUrl habs b hdl
    subst habs
    have hdrop : ((outDir ++ ["assets"]) ++
        ["wix-workers", String.mk (safeFilename (resolve (rstripChars ['/'] eb ++ lit "/")
          (lstripChars ['/'] (stripFragment v))))]).drop
          ((outDir ++ ["assets"]).dropLast.length) =
        ["assets", "wix-workers", String.mk (safeFilename (resolve
          (rstripChars ['/'] eb ++ lit "/") (lstripChars ['/'] (stripFragment v))))] := by
      have h1 : (outDir ++ ["assets"]).dropLast = outDir := by simp
      rw [h1, List.append_assoc]
      exact List.drop_left _ _
    simp only [List.append_assoc, List.singleton_append, List.cons_append,
      List.nil_append] at hdl hdrop
    simp [maybeRewriteValue, hmark, hhttp, hslash, heb, hne, hdl, hdrop, joinComps]
    try rfl

/-- Witness for C6 at the spec's example: a root-relative
`clientWorker` bundle path with `site.externalBaseUrl` present becomes
`/assets/wix-workers/clientWorker.abc123.bundle.min.js`. -/
theorem c6_worker_localizer_witness :
    maybeRewriteValue (fun base r => base ++ r) (fun _ => some [9])
        (.obj [("site", .obj [("externalBaseUrl", .str (lit "https://cdn.example.com"))])])
        (["site"] ++ ["assets"]) (lit "/x/clientWorker.abc123.bundle.min.js")
        ⟨[], 0, false⟩ =
      (lit "/assets/wix-workers/clientWorker.abc123.bundle.min.js",
       ⟨[(["site", "assets", "wix-workers", "clientWorker.abc123.bundle.min.js"], [9])],
        1, true⟩) := by
  have h := (c6_worker_localizer (fun base r => base ++ r) (fun _ => some [9])
      (.obj [("site", .obj [("externalBaseUrl", .str (lit "https://cdn.example.com"))])])
      ["site"] (lit "/x/clientWorker.abc123.bundle.min.js") ⟨[], 0, false⟩
      (by decide) (by decide) (by decide)).2 (lit "https://cdn.example.com") (by decide)
      (by decide) _ rfl true (by decide)
  exact h.trans (by decide)

/-- Helper: a string without the `clientWorker.` marker passes through
`maybe_rewrite_value` unchanged, with no state change. -/
theorem maybeRewriteValue_no_marker (resolve : Str → Str → Str)
    (net : Str → Option (List Nat)) (model : Json) (assetsDir : FPath) (v : Str)
    (st : WState) (h : strContains v (lit "clientWorker.") = false) :
    maybeRewriteValue resolve net model assetsDir v st = (v, st) := by
  cases hw : strContains v (lit "wix-thunderbolt") <;> simp [maybeRewriteValue, h, hw]

mutual

/-- The deep walk preserves the structural skeleton of any JSON value. -/
theorem walk_skeleton (resolve : Str → Str → Str) (net : Str → Option (List Nat))
    (model : Json) (assetsDir : FPath) :
    ∀ (j : Json) (st : WState),
      skeleton (walk resolve net model assetsDir j st).1 = skeleton j
  | .obj kvs, st => by
      simp only [walk, skeleton]
      exact congrArg Json.obj (walkObj_skeleton resolve net model assetsDir kvs st)
  | .arr xs, st => by
      simp only [walk, skeleton]
      exact congrArg Json.arr (walkArr_skeleton resolve net model assetsDir xs st)
  | .str s, st => by simp [walk, skeleton]
  | .num n, st => by simp [walk]
  | .bool b, st => by simp [walk]
  | .null, st => by simp [walk]
termination_by structural j st => j

/-- The deep walk preserves the skeleton of an object's key-value list. -/
theorem walkObj_skeleton (resolve : Str → Str → Str) (net : Str → Option (List Nat))
    (model : Json) (assetsDir : FPath) :
    ∀ (kvs : List (String × Json)) (st : WState),
      skeletonObj (walkObj resolve net model assetsDir kvs st).1 = skeletonObj kvs
  | [], st => by simp [walkObj]
  | (k, v) :: t, st => by
      simp only [walkObj, skeletonObj]
      rw [walk_skeleton resolve net model assetsDir v st,
        walkObj_skeleton resolve net model assetsDir t _]
termination_by structural kvs st => kvs

/-- The deep walk preserves the skeleton of an array's element list. -/
theorem walkArr_skeleton (resolve : Str → Str → Str) (net : Str → Option (List Nat))
    (model : Json) (assetsDir : FPath) :
    ∀ (xs : List Json) (st : WState),
      skeletonArr (walkArr resolve net model assetsDir xs st).1 = skeletonArr xs
  | [], st => by simp [walkArr]
  | x :: t, st => by
      simp only [walkArr, skeletonArr]
      rw [walk_skeleton resolve net model assetsDir x st,
        walkArr_skeleton resolve net model assetsDir t _]
termination_by structural xs st => xs

end

/-- C10: the deep walk keeps every map's key set and order, every sequence's
length and element order, and every non-string scalar (the skeleton is
preserved), and returns every string value without the `clientWorker.`
marker unchanged, with untouched state. -/
theorem c10_walk_shape (resolve : Str → Str → Str) (net : Str → Option (List Nat))
    (model : Json) (assetsDir : FPath) :
    (∀ (j : Json) (st : WState),
        skeleton (walk resolve net model assetsDir j st).1 = skeleton j) ∧
      (∀ (s : Str) (st : WState), strContains s (lit "clientWorker.") = false →
        walk resolve net model assetsDir (.str s) st = (.str s, st)) := by
  refine ⟨walk_skeleton resolve net model assetsDir, ?_⟩
  intro s st h
  simp [walk, maybeRewriteValue_no_marker resolve net model assetsDir s st h]

/-- Witness for C10 on concrete values. -/
theorem c10_walk_shape_witness :
    skeleton (walk (fun _ r => r) (fun _ => none) Json.null []
        (.arr [.num 3]) ⟨[], 0, false⟩).1 = skeleton (.arr [.num 3]) ∧
      walk (fun _ r => r) (fun _ => none) Json.null [] (.str (lit "hello"))
          ⟨[], 0, false⟩ = (.str (lit "hello"), ⟨[], 0, false⟩) :=
  ⟨(c10_walk_shape _ _ _ _).1 _ _, (c10_walk_shape _ _ _ _).2 _ _ (by decide)⟩

/-! ## Lemmas about the Asset Namer's building blocks -/

/-- One hex block has eight characters. -/
theorem toHex8_length (w : Nat) : (toHex8 w).length = 8 := by
  simp [toHex8]

/-- The hex digest always has 64 characters. -/
theorem sha256Hex_length (msg : List Nat) : (sha256Hex msg).length = 64 := by
  simp [sha256Hex, toHex8]

/-- A hex digit of a nibble is never a dot. -/
theorem digitChar_nibble_ne_dot (n : Nat) : Nat.digitChar (n &&& 15) ≠ '.' := by
  have h : n &&& 15 ≤ 15 := Nat.and_le_right
  set k := n &&& 15 with hk
  interval_cases k <;> decide

/-- No dot occurs in a hex block. -/
theorem toHex8_no_dot (w : Nat) : '.' ∉ toHex8 w := by
  intro h
  simp only [toHex8, hexDigit, List.mem_cons, List.not_mem_nil, or_false] at h
  rcases h with h | h | h | h | h | h | h | h <;> exact digitChar_nibble_ne_dot _ h.symm

/-- No dot occurs in a digest. -/
theorem sha256Hex_no_dot (msg : List Nat) : '.' ∉ sha256Hex msg := by
  intro h
  simp only [sha256Hex, List.mem_append] at h
  rcases h with ((((((h | h) | h) | h) | h) | h) | h) | h <;> exact toHex8_no_dot _ h

/-- When `splitLastChar` finds nothing, the character does not occur. -/
theorem splitLastChar_none {tc : Char} : ∀ {s : Str},
    splitLastChar tc s = none → tc ∉ s := by
  intro s
  induction s with
  | nil => intro _; simp
  | cons c t ih =>
    intro h
    simp only [splitLastChar] at h
    cases hrec : splitLastChar tc t with
    | some p => rw [hrec] at h; exact absurd h (by simp)
    | none =>
      rw [hrec] at h
      have hct : ¬(c = tc) := fun hc => by simp [hc] at h
      have hnt : tc ∉ t := ih hrec
      simp only [List.mem_cons, not_or]
      exact ⟨fun he => hct he.symm, hnt⟩

/-- When the character does not occur, `splitLastChar` finds nothing. -/
theorem splitLastChar_not_mem {tc : Char} : ∀ {s : Str},
    tc ∉ s → splitLastChar tc s = none := by
  intro s
  induction s with
  | nil => intro _; rfl
  | cons c t ih =>
    intro h
    have h1 : tc ∉ t := fun hm => h (List.mem_cons_of_mem _ hm)
    have h2 : ¬(c = tc) := fun hc => h (by simp [hc])
    simp [splitLastChar, ih h1, h2]

/-- A successful `splitLastChar` decomposes the string at the last
occurrence. -/
theorem splitLastChar_some {tc : Char} : ∀ {s a b : Str},
    splitLastChar tc s = some (a, b) → s = a ++ tc :: b ∧ tc ∉ b := by
  intro s
  induction s with
  | nil => intro a b h; simp [splitLastChar] at h
  | cons c t ih =>
    intro a b h
    simp only [splitLastChar] at h
    cases hrec : splitLastChar tc t with
    | some p =>
      obtain ⟨a', b'⟩ := p
      rw [hrec] at h
      simp only [Option.some.injEq, Prod.mk.injEq] at h
      obtain ⟨rfl, rfl⟩ := h
      obtain ⟨hs', hnb⟩ := ih hrec
      exact ⟨by rw [List.cons_append, ← hs'], hnb⟩
    | none =>
      rw [hrec] at h
      by_cases hc : c = tc
      · rw [if_pos hc] at h
        simp only [Option.some.injEq, Prod.mk.injEq] at h
        obtain ⟨rfl, rfl⟩ := h
        exact ⟨by simp [hc], splitLastChar_none hrec⟩
      · rw [if_neg hc] at h
        exact absurd h (by simp)

/-- Construction form: splitting `a ++ tc :: b` with `tc` absent from `b`
finds exactly that decomposition. -/
theorem splitLastChar_append {tc : Char} {b : Str} (hb : tc ∉ b) :
    ∀ a : Str, splitLastChar tc (a ++ tc :: b) = some (a, b) := by
  intro a
  induction a with
  | nil => simp [splitLastChar, splitLastChar_not_mem hb]
  | cons c a' ih => simp [splitLastChar, ih]

/-- The two parts of `splitext` rebuild the input. -/
theorem splitext_concat (p : Str) : (splitext p).1 ++ (splitext p).2 = p := by
  unfold splitext
  cases h1 : splitLastChar '/' p with
  | none =>
    simp only [h1]
    cases h2 : splitLastChar '.' p with
    | none => simp
    | some pr =>
      obtain ⟨pre, post⟩ := pr
      have hp := (splitLastChar_some h2).1
      by_cases ha : pre.any (· != '.') = true
      · simp [ha, ← hp]
      · simp [ha]
  | some pr =>
    obtain ⟨d, f⟩ := pr
    simp only [h1]
    have hp := (splitLastChar_some h1).1
    cases h2 : splitLastChar '.' f with
    | none => simp
    | some pr2 =>
      obtain ⟨pre, post⟩ := pr2
      have hf := (splitLastChar_some h2).1
      by_cases ha : pre.any (· != '.') = true
      · simp only [ha, if_true]
        rw [hp, hf]
        simp [List.append_assoc]
      · simp [ha]

/-- A dotless string has no extension. -/
theorem splitext_no_dot {p : Str} (hd : '.' ∉ p) : splitext p = (p, []) := by
  unfold splitext
  cases h1 : splitLastChar '/' p with
  | none =>
    simp only [h1]
    rw [splitLastChar_not_mem hd]
  | some pr =>
    obtain ⟨d, f⟩ := pr
    simp only [h1]
    have hf : '.' ∉ f := by
      intro hm
      exact hd (by rw [(splitLastChar_some h1).1]; simp [hm])
    rw [splitLastChar_not_mem hf]

/-- Elimination form of a `.js` extension for a slash-free string. -/
theorem splitext_js_elim {p r : Str} (hp : '/' ∉ p)
    (h : splitext p = (r, lit ".js")) :
    splitLastChar '.' p = some (r, lit "js") ∧ r.any (· != '.') = true := by
  unfold splitext at h
  rw [splitLastChar_not_mem hp] at h
  dsimp only at h
  cases h2 : splitLastChar '.' p with
  | none =>
    simp only [h2] at h
    have hsnd : ([] : Str) = lit ".js" := congrArg Prod.snd h
    exact absurd hsnd (by decide)
  | some pr =>
    obtain ⟨pre, post⟩ := pr
    simp only [h2] at h
    by_cases ha : pre.any (· != '.') = true
    · rw [if_pos ha] at h
      simp only [Prod.mk.injEq, List.nil_append] at h
      obtain ⟨hr, hpost⟩ := h
      have hpost' : post = lit "js" := by
        have hcc : ('.' :: post : Str) = '.' :: lit "js" := hpost
        exact List.cons_injective.eq_iff.mp hcc
      subst hr
      exact ⟨by rw [hpost'], ha⟩
    · rw [if_neg ha] at h
      have hsnd : ([] : Str) = lit ".js" := congrArg Prod.snd h
      exact absurd hsnd (by decide)

/-- A POSIX basename contains no slash. -/
theorem basename_no_slash (p : Str) : '/' ∉ posixBasename p := by
  unfold posixBasename
  cases h : splitLastChar '/' p with
  | none => exact splitLastChar_none h
  | some pr =>
    obtain ⟨a, b⟩ := pr
    exact (splitLastChar_some h).2

/-- Membership gives singleton containment. -/
theorem strContains_singleton {c : Char} : ∀ {s : Str},
    c ∈ s → strContains s [c] = true := by
  intro s
  induction s with
  | nil => intro h; simp at h
  | cons d t ih =>
    intro h
    rcases List.mem_cons.mp h with rfl | hm
    · simp [strContains, List.isPrefixOf]
    · simp [strContains, ih hm]

/-- The sanitizer fixes a string of allowed characters. -/
theorem sanGo_all_good : ∀ (pb : Bool) (l : Str),
    (∀ c ∈ l, goodChar c = true) → sanGo pb l = l := by
  intro pb l
  induction l generalizing pb with
  | nil => intro _; rfl
  | cons c t ih =>
    intro h
    have hc : goodChar c = true := h c (by simp)
    simp [sanGo, hc, ih false (fun x hx => h x (by simp [hx]))]

/-- Every character the sanitizer emits is an allowed character of the input
or an underscore. -/
theorem sanGo_chars : ∀ (pb : Bool) (l : Str) (c : Char), c ∈ sanGo pb l →
    (c ∈ l ∧ goodChar c = true) ∨ c = '_' := by
  intro pb l
  induction l generalizing pb with
  | nil => intro c h; simp [sanGo] at h
  | cons d t ih =>
    intro c h
    by_cases hd : goodChar d = true
    · simp only [sanGo, if_pos hd, List.mem_cons] at h
      rcases h with rfl | h
      · exact Or.inl ⟨by simp, hd⟩
      · rcases ih false c h with ⟨hm, hg⟩ | hu
        · exact Or.inl ⟨by simp [hm], hg⟩
        · exact Or.inr hu
    · cases pb with
      | true =>
        simp only [sanGo, if_neg hd, if_pos rfl] at h
        rcases ih true c h with ⟨hm, hg⟩ | hu
        · exact Or.inl ⟨by simp [hm], hg⟩
        · exact Or.inr hu
      | false =>
        simp [sanGo, hd] at h
        rcases h with rfl | h
        · exact Or.inr rfl
        · rcases ih true c h with ⟨hm, hg⟩ | hu
          · exact Or.inl ⟨by simp [hm], hg⟩
          · exact Or.inr hu

/-- A disallowed character in the input makes the sanitizer emit an
underscore (from the run-start state). -/
theorem sanGo_underscore : ∀ (l : Str),
    (∃ c ∈ l, goodChar c = false) → '_' ∈ sanGo false l := by
  intro l
  induction l with
  | nil => rintro ⟨c, hc, _⟩; simp at hc
  | cons d t ih =>
    rintro ⟨c, hc, hbad⟩
    by_cases hd : goodChar d = true
    · have hct : c ∈ t := by
        rcases List.mem_cons.mp hc with rfl | h
        · rw [hd] at hbad; exact absurd hbad (by simp)
        · exact h
      simp only [sanGo, if_pos hd, List.mem_cons]
      exact Or.inr (ih ⟨c, hct, hbad⟩)
    · simp [sanGo, hd]

/-- Sanitizing `r ++ g` for an all-good `g` keeps `g` as a suffix, and the
prefix consists of characters of `r` and underscores. -/
theorem sanGo_suffix (g : Str) (hg : ∀ c ∈ g, goodChar c = true) :
    ∀ (pb : Bool) (r : Str), ∃ ys, sanGo pb (r ++ g) = ys ++ g ∧
      ∀ c ∈ ys, c ∈ r ∨ c = '_' := by
  intro pb r
  induction r generalizing pb with
  | nil => exact ⟨[], by simp [sanGo_all_good pb g hg], by simp⟩
  | cons c r' ih =>
    by_cases hc : goodChar c = true
    · obtain ⟨ys, h1, h2⟩ := ih false
      refine ⟨c :: ys, ?_, ?_⟩
      · simp [sanGo, hc, h1]
      · intro x hx
        rcases List.mem_cons.mp hx with rfl | hx'
        · exact Or.inl (by simp)
        · rcases h2 x hx' with h | h
          · exact Or.inl (by simp [h])
          · exact Or.inr h
    · cases pb with
      | true =>
        obtain ⟨ys, h1, h2⟩ := ih true
        refine ⟨ys, ?_, ?_⟩
        · simp [sanGo, hc, h1]
        · intro x hx
          rcases h2 x hx with h | h
          · exact Or.inl (by simp [h])
          · exact Or.inr h
      | false =>
        obtain ⟨ys, h1, h2⟩ := ih true
        refine ⟨'_' :: ys, ?_, ?_⟩
        · simp [sanGo, hc, h1]
        · intro x hx
          rcases List.mem_cons.mp hx with rfl | hx'
          · exact Or.inr rfl
          · rcases h2 x hx' with h | h
            · exact Or.inl (by simp [h])
            · exact Or.inr h

/-- Sanitizing a name of the form `pre ++ ".js"` (with a non-dot character
before the extension) keeps the `.js` extension, both as a suffix and for
`splitext`. -/
theorem sanitize_js {pre : Str} (hany : pre.any (· != '.') = true) :
    ∃ ys, sanitizeRuns (pre ++ lit ".js") = ys ++ lit ".js" ∧
      ys.any (· != '.') = true ∧
      splitext (sanitizeRuns (pre ++ lit ".js")) = (ys, lit ".js") := by
  have hg : ∀ c ∈ lit ".js", goodChar c = true := by decide
  obtain ⟨ys, h1, h2⟩ := sanGo_suffix (lit ".js") hg false pre
  have h1' : sanitizeRuns (pre ++ lit ".js") = ys ++ lit ".js" := h1
  have hys : ys.any (· != '.') = true := by
    by_cases hbad : ∃ c ∈ pre, goodChar c = false
    · have hu : '_' ∈ sanGo false (pre ++ lit ".js") := by
        apply sanGo_underscore
        obtain ⟨c, hcm, hb⟩ := hbad
        exact ⟨c, by simp [hcm], hb⟩
      rw [h1] at hu
      have hmem : '_' ∈ ys := by
        rcases List.mem_append.mp hu with h | h
        · exact h
        · exact absurd h (by decide)
      exact List.any_eq_true.mpr ⟨'_', hmem, by decide⟩
    · push_neg at hbad
      have hall : ∀ c ∈ pre ++ lit ".js", goodChar c = true := by
        intro c hcm
        rcases List.mem_append.mp hcm with h | h
        · simpa using hbad c h
        · exact hg c h
      have heq := sanGo_all_good false (pre ++ lit ".js") hall
      rw [heq] at h1
      have : pre = ys := List.append_cancel_right h1
      rw [← this]
      exact hany
  have hnos : '/' ∉ sanitizeRuns (pre ++ lit ".js") := by
    intro hm
    rcases sanGo_chars false (pre ++ lit ".js") '/' hm with ⟨_, hgood⟩ | h
    · exact absurd hgood (by decide)
    · exact absurd h (by decide)
  refine ⟨ys, h1', hys, ?_⟩
  rw [h1']
  rw [h1'] at hnos
  unfold splitext
  rw [splitLastChar_not_mem hnos]
  dsimp only
  rw [show (lit ".js" : Str) = '.' :: lit "js" from rfl,
    splitLastChar_append (by decide) ys]
  dsimp only
  rw [if_pos hys]
  simp

/-- The `.js`-preservation direction of the amended namer claim: a URL whose
last path segment has extension `.js` (in the `os.path.splitext` sense)
yields a filename ending in `.js`. -/
theorem safeFilename_js {u r : Str}
    (h : splitext (posixBasename (urlparse u).path) = (r, lit ".js")) :
    ∃ zs, safeFilename u = zs ++ lit ".js" := by
  have hnos := basename_no_slash (urlparse u).path
  obtain ⟨hsp, hany⟩ := splitext_js_elim hnos h
  have hbase : posixBasename (urlparse u).path = r ++ lit ".js" :=
    (splitLastChar_some hsp).1
  obtain ⟨ys, h1, hys, hsplit⟩ := sanitize_js hany
  have hcont : strContains (posixBasename (urlparse u).path) (lit ".") = true := by
    apply strContains_singleton
    rw [hbase]
    exact List.mem_append.mpr (Or.inr (by decide))
  rw [hbase] at hcont
  have hjs_ne : (lit ".js" : Str) ≠ [] := by decide
  by_cases hq : ((urlparse u).query != []) = true
  · refine ⟨ys ++ '_' :: (sha256Hex (utf8Encode (urlparse u).query)).take 8, ?_⟩
    have hsplit' : splitext (ys ++ lit ".js") = (ys, lit ".js") := h1 ▸ hsplit
    simp [safeFilename, hbase, hcont, hq, h1, hsplit', hjs_ne, List.append_assoc]
  · have hq' : ((urlparse u).query != []) = false := by
      simpa using hq
    refine ⟨ys, ?_⟩
    simp [safeFilename, hbase, hcont, hq', h1, hjs_ne]

/-- C3 counterexample: two URLs with the same scheme, host and path but
different query strings receive the same filename, because the 8-hex
truncation of the query digest collides
(`sha256("a=45825")` and `sha256("a=59467")` share their first eight hex
digits). -/
theorem c3_truncated_digest_collision :
    safeFilename (lit "http://h/f.js?a=45825") = safeFilename (lit "http://h/f.js?a=59467") ∧
      (urlparse (lit "http://h/f.js?a=45825")).scheme =
        (urlparse (lit "http://h/f.js?a=59467")).scheme ∧
      (urlparse (lit "http://h/f.js?a=45825")).netloc =
        (urlparse (lit "http://h/f.js?a=59467")).netloc ∧
      (urlparse (lit "http://h/f.js?a=45825")).path =
        (urlparse (lit "http://h/f.js?a=59467")).path ∧
      (urlparse (lit "http://h/f.js?a=45825")).query ≠
        (urlparse (lit "http://h/f.js?a=59467")).query := by
  exact ⟨by decide, by decide, by decide, by decide, by decide⟩

/-- `safeFilename` factors through `nameNoQuery`. -/
theorem safeFilename_eq (u : Str) :
    safeFilename u =
      if (urlparse u).query != [] then
        (splitext (nameNoQuery u)).1 ++
          '_' :: ((sha256Hex (utf8Encode (urlparse u).query)).take 8 ++
            (splitext (nameNoQuery u)).2)
      else nameNoQuery u := rfl

/-- URLs with equal paths get equal-length query-free names. -/
theorem nameNoQuery_length_eq {u1 u2 : Str}
    (hp : (urlparse u1).path = (urlparse u2).path) :
    (nameNoQuery u1).length = (nameNoQuery u2).length := by
  simp only [nameNoQuery]
  rw [hp]
  by_cases hc : ((posixBasename (urlparse u2).path != []) &&
      strContains (posixBasename (urlparse u2).path) (lit ".")) = true
  · rw [if_pos hc, if_pos hc]
  · rw [if_neg hc, if_neg hc]
    simp [List.length_append, List.length_take, sha256Hex_length]

/-- With a query, the filename is nine characters longer than the query-free
name (underscore plus eight digest digits). -/
theorem safeFilename_query_len {u : Str} (hq : (urlparse u).query ≠ []) :
    (safeFilename u).length = (nameNoQuery u).length + 9 := by
  have hq' : ((urlparse u).query != []) = true := by
    simp [bne_iff_ne, hq]
  rw [safeFilename_eq u, if_pos hq']
  have hsp : ((splitext (nameNoQuery u)).1).length +
      ((splitext (nameNoQuery u)).2).length = (nameNoQuery u).length := by
    rw [← List.length_append, splitext_concat]
  simp only [List.length_append, List.length_cons, List.length_take, sha256Hex_length]
  omega

/-- Without a query, the filename is the query-free name. -/
theorem safeFilename_noquery {u : Str} (hq : (urlparse u).query = []) :
    safeFilename u = nameNoQuery u := by
  rw [safeFilename_eq u, if_neg]
  simp [hq]

/-- With a query, the filename is the query-free name with the digest spliced
in at the extension. -/
theorem safeFilename_query {u : Str} (hq : (urlparse u).query ≠ []) :
    safeFilename u = (splitext (nameNoQuery u)).1 ++
      '_' :: ((sha256Hex (utf8Encode (urlparse u).query)).take 8 ++
        (splitext (nameNoQuery u)).2) := by
  have hq' : ((urlparse u).query != []) = true := by
    simp [bne_iff_ne, hq]
  rw [safeFilename_eq u, if_pos hq']

/-- Same path, one query empty and one not: the filenames differ (their
lengths differ by nine). -/
theorem safeFilename_query_mix {u1 u2 : Str}
    (hp : (urlparse u1).path = (urlparse u2).path)
    (hq1 : (urlparse u1).query = []) (hq2 : (urlparse u2).query ≠ []) :
    safeFilename u1 ≠ safeFilename u2 := by
  intro heq
  have h1 : (safeFilename u1).length = (nameNoQuery u2).length := by
    rw [safeFilename_noquery hq1]
    exact nameNoQuery_length_eq hp
  have h2 : (safeFilename u2).length = (nameNoQuery u2).length + 9 :=
    safeFilename_query_len hq2
  rw [heq] at h1
  omega

/-- Same path, both queries non-empty, distinct truncated digests: the
filenames differ. -/
theorem safeFilename_query_clash {u1 u2 : Str}
    (hp : (urlparse u1).path = (urlparse u2).path)
    (hq1 : (urlparse u1).query ≠ []) (hq2 : (urlparse u2).query ≠ [])
    (hqh : (sha256Hex (utf8Encode (urlparse u1).query)).take 8 ≠
      (sha256Hex (utf8Encode (urlparse u2).query)).take 8) :
    safeFilename u1 ≠ safeFilename u2 := by
  intro heq
  rw [safeFilename_query hq1, safeFilename_query hq2] at heq
  by_cases hc : ((posixBasename (urlparse u2).path != []) &&
      strContains (posixBasename (urlparse u2).path) (lit ".")) = true
  · have hnn : nameNoQuery u1 = nameNoQuery u2 := by
      unfold nameNoQuery
      rw [hp, if_pos hc, if_pos hc]
    rw [hnn] at heq
    have h1 := List.append_cancel_left heq
    injection h1 with _ h2
    exact hqh (List.append_cancel_right h2)
  · have hnn1 : nameNoQuery u1 = lit "asset_" ++ (sha256Hex (utf8Encode u1)).take 16 := by
      unfold nameNoQuery
      rw [hp, if_neg hc]
    have hnn2 : nameNoQuery u2 = lit "asset_" ++ (sha256Hex (utf8Encode u2)).take 16 := by
      simp only [nameNoQuery]
      rw [if_neg hc]
    have hnd1 : '.' ∉ lit "asset_" ++ (sha256Hex (utf8Encode u1)).take 16 := by
      intro hm
      rcases List.mem_append.mp hm with h | h
      · exact absurd h (by decide)
      · exact sha256Hex_no_dot _ (List.take_subset _ _ h)
    have hnd2 : '.' ∉ lit "asset_" ++ (sha256Hex (utf8Encode u2)).take 16 := by
      intro hm
      rcases List.mem_append.mp hm with h | h
      · exact absurd h (by decide)
      · exact sha256Hex_no_dot _ (List.take_subset _ _ h)
    rw [hnn1, hnn2, splitext_no_dot hnd1, splitext_no_dot hnd2] at heq
    simp only [List.append_nil] at heq
    have hlen : (lit "asset_" ++ (sha256Hex (utf8Encode u1)).take 16).length =
        (lit "asset_" ++ (sha256Hex (utf8Encode u2)).take 16).length := by
      simp [List.length_append, List.length_take, sha256Hex_length]
    obtain ⟨-, h2⟩ := List.append_inj heq hlen
    injection h2 with _ h3
    exact hqh h3

/-- C3 amended: the Asset Namer is a pure, deterministic function of the URL;
for two URLs with the same scheme, host and path, the filenames differ
whenever exactly one query string is empty, and, for two non-empty query
strings, whenever the first eight hex digits of the queries' SHA-256
digests differ (the 8-hex truncation itself can collide, as the recorded
counterexample shows); and a URL whose last path segment has extension
`.js` yields a filename ending in `.js`. -/
theorem c3_asset_namer_amended :
    (∀ u : Str, safeFilename u = safeFilename u) ∧
      (∀ u1 u2 : Str, (urlparse u1).scheme = (urlparse u2).scheme →
        (urlparse u1).netloc = (urlparse u2).netloc →
        (urlparse u1).path = (urlparse u2).path →
        (urlparse u1).query = [] → (urlparse u2).query ≠ [] →
        safeFilename u1 ≠ safeFilename u2) ∧
      (∀ u1 u2 : Str, (urlparse u1).scheme = (urlparse u2).scheme →
        (urlparse u1).netloc = (urlparse u2).netloc →
        (urlparse u1).path = (urlparse u2).path →
        (urlparse u1).query ≠ [] → (urlparse u2).query ≠ [] →
        (sha256Hex (utf8Encode (urlparse u1).query)).take 8 ≠
          (sha256Hex (utf8Encode (urlparse u2).query)).take 8 →
        safeFilename u1 ≠ safeFilename u2) ∧
      (∀ u r : Str, splitext (posixBasename (urlparse u).path) = (r, lit ".js") →
        ∃ zs, safeFilename u = zs ++ lit ".js") := by
  refine ⟨fun _ => rfl, ?_, ?_, ?_⟩
  · intro u1 u2 _ _ hp hq1 hq2
    exact safeFilename_query_mix hp hq1 hq2
  · intro u1 u2 _ _ hp hq1 hq2 hqh
    exact safeFilename_query_clash hp hq1 hq2 hqh
  · intro u r h
    exact safeFilename_js h

/-- Witness for the amended C3 theorem at concrete URLs. -/
theorem c3_asset_namer_amended_witness :
    safeFilename (lit "http://h/a.js") ≠ safeFilename (lit "http://h/a.js?x=1") ∧
      safeFilename (lit "http://h/a.js?x=1") ≠ safeFilename (lit "http://h/a.js?x=2") ∧
      (∃ zs, safeFilename (lit "http://h/a.js") = zs ++ lit ".js") := by
  refine ⟨?_, ?_, ?_⟩
  · exact c3_asset_namer_amended.2.1 _ _ (by decide) (by decide) (by decide) (by decide)
      (by decide)
  · exact c3_asset_namer_amended.2.2.1 _ _ (by decide) (by decide) (by decide) (by decide)
      (by decide) (by decide)
  · exact c3_asset_namer_amended.2.2.2 _ (lit "a") (by decide)

end StaticMirror
